import Mathlib

/-!
Verification of the private-journal retrieval engine.

The model is a shallow embedding of the TypeScript sources:
`src/search.ts` (SearchService), `src/journal.ts` (JournalManager).
JavaScript strings are modelled as `List Char`, floating point numbers as `ℚ`,
millisecond-epoch timestamps as `ℤ`, and the filesystem as explicit data
(`StoreFS`).  Operations that read or write files additionally return a trace
of the filesystem calls they perform (`FSEvent`).

The `EmbeddingService` class (`src/embeddings.ts`) is not part of the source
tree; its operations (`extractSearchableText`, `generateEmbedding`, sidecar
JSON encode/decode) are injected dependencies, collected in `Env`, and its
`cosineSimilarity` is modelled from the spec (see below).
-/

/-- JavaScript strings, modelled as lists of characters. -/
abbrev Str := List Char

/-- `needle` occurs as a substring of `hay` (JS `String.prototype.includes`). -/
def containsStr (hay needle : Str) : Bool := decide (needle <:+: hay)

/-- `suf` is a suffix of `s` (JS `String.prototype.endsWith`). -/
def endsWithStr (s suf : Str) : Bool := decide (suf <:+ s)

/-- JS `String.prototype.toLowerCase`, character by character. -/
def lowerStr (s : Str) : Str := s.map Char.toLower

/-- JS `String.prototype.trim`: drop leading and trailing whitespace. -/
def trimChars (s : Str) : Str :=
  ((s.dropWhile Char.isWhitespace).reverse.dropWhile Char.isWhitespace).reverse

/-- Accumulator loop of `splitWs`: `acc` is the reversed piece being built,
`prevWs` records whether the previous character was whitespace (so that a
maximal whitespace run yields a single cut). -/
def splitWsAux : Str → Str → Bool → List Str
  | [], acc, _ => [acc.reverse]
  | c :: cs, acc, prevWs =>
    if c.isWhitespace then
      if prevWs then splitWsAux cs [] true
      else acc.reverse :: splitWsAux cs [] true
    else splitWsAux cs (c :: acc) false

/-- JS `str.split(/\s+/)`: split at maximal whitespace runs, keeping the
(possibly empty) pieces before the first and after the last run. -/
def splitWs (s : Str) : List Str := splitWsAux s [] false

/-- `path.join(a, b)` for the simple two-component joins the code performs. -/
def pathJoin (a b : Str) : Str := a ++ ('/' :: b)

/-- `path.basename(p)`: the part of the path after the last slash. -/
def basenameStr (p : Str) : Str := (p.reverse.takeWhile (fun c => !(c == '/'))).reverse

/-- `path.dirname(p)`: the part of the path before the last slash
(`"."` when there is no slash, as in Node). -/
def dirnameStr (p : Str) : Str :=
  match p.reverse.dropWhile (fun c => !(c == '/')) with
  | [] => ['.']
  | _ :: rest => rest.reverse

/-- Remove `suf` from the end of `s` when it is a suffix (as
`path.basename(p, ext)` does with the extension). -/
def stripSuffixStr (s suf : Str) : Str :=
  if suf <:+ s then s.take (s.length - suf.length) else s

/-- Decimal digits to a natural number (JS `parseInt` on a digit string). -/
def digitsToNat (l : Str) : Nat := l.foldl (fun a c => a * 10 + (c.toNat - 48)) 0

/-- Parse a `YYYY-MM-DD` directory name (the regex
`/^\d{4}-\d{2}-\d{2}$/` plus capture groups). -/
def dayStamp : Str → Option (Nat × Nat × Nat)
  | [a, b, c, d, '-', e, f, '-', g, h] =>
    if a.isDigit && b.isDigit && c.isDigit && d.isDigit && e.isDigit && f.isDigit
        && g.isDigit && h.isDigit then
      some (digitsToNat [a, b, c, d], digitsToNat [e, f], digitsToNat [g, h])
    else none
  | _ => none

/-- `dayDir.match(/^\d{4}-\d{2}-\d{2}$/)` as a Boolean test. -/
def matchesDayDir (s : Str) : Bool := (dayStamp s).isSome

/-- Parse an `HH-MM-SS-⟨6 digits⟩` note file name (the regex
`/^(\d{2})-(\d{2})-(\d{2})-\d{6}$/` of `extractTimestampFromPath`). -/
def mdStamp : Str → Option (Nat × Nat × Nat)
  | [h1, h2, '-', m1, m2, '-', s1, s2, '-', u1, u2, u3, u4, u5, u6] =>
    if h1.isDigit && h2.isDigit && m1.isDigit && m2.isDigit && s1.isDigit && s2.isDigit
        && u1.isDigit && u2.isDigit && u3.isDigit && u4.isDigit && u5.isDigit
        && u6.isDigit then
      some (digitsToNat [h1, h2], digitsToNat [m1, m2], digitsToNat [s1, s2])
    else none
  | _ => none

/-! ## Data model -/

/-- A `VectorRecord` sidecar: the `EmbeddingData` interface of
`src/embeddings.ts` as used by `search.ts` and `journal.ts`. -/
structure EmbeddingData where
  embedding : List ℚ
  text : Str
  sections : List Str
  timestamp : ℤ
  path : Str
deriving DecidableEq

/-- Which store a record was loaded from (`'project' | 'user'`). -/
inductive EntryType where
  | project
  | user
deriving DecidableEq

/-- The `type` search option: `'project' | 'user' | 'both'`. -/
inductive TypeFilter where
  | project
  | user
  | both
deriving DecidableEq

/-- A record tagged with its store of origin (`{ ...embeddingData, type }`). -/
structure TaggedEmbedding where
  data : EmbeddingData
  type : EntryType
deriving DecidableEq

/-- The `SearchResult` interface of `search.ts`. -/
structure SearchResult where
  path : Str
  score : ℚ
  text : Str
  sections : List Str
  timestamp : ℤ
  excerpt : Str
  type : EntryType
deriving DecidableEq

/-- The `dateRange` option; `stop` models the `end` field
(`end` is reserved in Lean). -/
structure DateRange where
  start : Option ℤ
  stop : Option ℤ
deriving DecidableEq

/-- The `SearchOptions` interface; `none` fields are absent options. -/
structure SearchOptions where
  limit : Option Nat := none
  minScore : Option ℚ := none
  sections : Option (List Str) := none
  dateRange : Option DateRange := none
  type : Option TypeFilter := none

/-- A file inside a day directory, with its raw text content. -/
structure FSFile where
  name : Str
  content : Str
deriving DecidableEq

/-- A directory entry of a store root, as seen by `fs.readdir` + `fs.stat`. -/
structure FSEntry where
  name : Str
  isDir : Bool
  files : List FSFile
deriving DecidableEq

/-- A store root: `none` when the root directory does not exist
(`fs.readdir` fails with `ENOENT`). -/
abbrev StoreFS := Option (List FSEntry)

/-- One filesystem or embedding call performed by an operation, in order. -/
inductive FSEvent where
  | embedQuery (query : Str)
  | readDirEv (p : Str)
  | statEv (p : Str)
  | readFileEv (p : Str)
  | accessEv (p : Str)
  | writeFileEv (p : Str) (content : Str)
deriving DecidableEq

/-- Events that create, modify or delete a file. -/
def FSEvent.isWriteEvent : FSEvent → Bool
  | .writeFileEv _ _ => true
  | _ => false

/-- The injected collaborators of the engine.  `extract`, `embed`, `parse`
and `encode` model the `EmbeddingService` operations whose source
(`src/embeddings.ts`) is not in the tree; `sqrtQ` models floating point
square root; `mkDate y mo d h mi s` models
`new Date(y, mo - 1, d, h, mi, s).getTime()`; `now` models
`new Date().getTime()`. -/
structure Env where
  extract : Str → Str × List Str
  embed : Str → Except Str (List ℚ)
  parse : Str → Option EmbeddingData
  encode : EmbeddingData → Str
  sqrtQ : ℚ → ℚ
  mkDate : Nat → Nat → Nat → Nat → Nat → Nat → ℤ
  now : ℤ

/-- `embed` succeeded. -/
def embedOk : Except Str (List ℚ) → Bool
  | .ok _ => true
  | .error _ => false

/-! ## VectorCodec: cosine similarity -/

/-- Sum of squares of a vector; the norm is zero iff this is zero. -/
def normSq (v : List ℚ) : ℚ := (v.map (fun x => x * x)).sum

/-- Dot product of two vectors. -/
def dotProduct (a b : List ℚ) : ℚ := (List.zipWith (· * ·) a b).sum

/-- Modelled from the spec: `cosineSimilarity` of the missing
`src/embeddings.ts`.  "standard dot-product-over-norms.  Fails with a
`DimensionMismatch` error when `len(a) != len(b)`.  Returns exactly `0`
(not `NaN`) when either vector has zero norm."  The square root is the
injected `sqrtQ`; a vector has zero norm exactly when its sum of squares
is zero, which is how the zero-norm test is phrased here. -/
def cosineSimilarity (sqrtQ : ℚ → ℚ) (a b : List ℚ) : Except Str ℚ :=
  if a.length = b.length then
    if normSq a = 0 ∨ normSq b = 0 then .ok 0
    else .ok (dotProduct a b / (sqrtQ (normSq a) * sqrtQ (normSq b)))
  else .error "DimensionMismatch".data

/-! ## Excerpt generation (`SearchService.generateExcerpt`) -/

/-- The `'...'` marker. -/
def excerptEllipsis : Str := "...".data

/-- Score of the window of `maxLength` characters of `textLower` starting at
`i`: the number of entries of `queryWords` (with multiplicity) occurring in
the window (`queryWords.reduce((sum, word) => sum + (window.includes(word) ? 1 : 0), 0)`). -/
def windowScore (queryWords : List Str) (textLower : Str) (maxLength i : Nat) : Nat :=
  (queryWords.filter (fun w => containsStr ((textLower.drop i).take maxLength) w)).length

/-- The window start positions scanned by
`for (let i = 0; i <= text.length - maxLength; i += 20)`
(no iterations when `text.length - maxLength` is negative). -/
def excerptPositions (textLen maxLength : Nat) : List Nat :=
  if textLen < maxLength then [] else List.range' 0 ((textLen - maxLength) / 20 + 1) 20

/-- One iteration of the `bestPosition` loop of `generateExcerpt`:
move to `(i, score i)` whenever `score i > bestScore`. -/
def bestFoldStep (score : Nat → Nat) (acc : Nat × Nat) (i : Nat) : Nat × Nat :=
  if acc.2 < score i then (i, score i) else acc

/-- The loop of `generateExcerpt` selecting `bestPosition`:
start from `(0, 0)` and move whenever the window score strictly improves. -/
def bestPosition (queryWords : List Str) (textLower : Str) (textLen maxLength : Nat) : Nat :=
  ((excerptPositions textLen maxLength).foldl
    (bestFoldStep (windowScore queryWords textLower maxLength)) (0, 0)).1

/-- The window start `generateExcerpt` picks for `text` and `query`. -/
def excerptBest (text query : Str) (maxLength : Nat) : Nat :=
  bestPosition (splitWs (lowerStr query)) (lowerStr text) text.length maxLength

/-- The window score `generateExcerpt` uses, at start position `i`. -/
def excerptScore (text query : Str) (maxLength i : Nat) : Nat :=
  windowScore (splitWs (lowerStr query)) (lowerStr text) maxLength i

/-- `SearchService.generateExcerpt(text, query, maxLength = 200)`. -/
def generateExcerpt (text query : Str) (maxLength : Nat) : Str :=
  if trimChars query = [] then
    text.take maxLength ++ (if maxLength < text.length then excerptEllipsis else [])
  else
    (if 0 < excerptBest text query maxLength then excerptEllipsis else [])
      ++ (text.drop (excerptBest text query maxLength)).take maxLength
      ++ (if excerptBest text query maxLength + maxLength < text.length
          then excerptEllipsis else [])

/-- Window score as the C8 claim words it: the number of *distinct*
lower-cased whitespace-split query words occurring in the window. -/
def windowScoreDistinct (queryWords : List Str) (textLower : Str) (maxLength i : Nat) : Nat :=
  (queryWords.dedup.filter (fun w => containsStr ((textLower.drop i).take maxLength) w)).length

/-- `bestPosition` under the claim's distinct-word scoring. -/
def bestPositionDistinct (queryWords : List Str) (textLower : Str) (textLen maxLength : Nat) : Nat :=
  ((excerptPositions textLen maxLength).foldl
    (bestFoldStep (windowScoreDistinct queryWords textLower maxLength)) (0, 0)).1

/-- Excerpt generation exactly as the C8 claim states it (distinct query
words); used to compare the claim's wording against the code. -/
def generateExcerptClaim (text query : Str) (maxLength : Nat) : Str :=
  if trimChars query = [] then
    text.take maxLength ++ (if maxLength < text.length then excerptEllipsis else [])
  else
    (if 0 < bestPositionDistinct (splitWs (lowerStr query)) (lowerStr text) text.length maxLength
        then excerptEllipsis else [])
      ++ (text.drop (bestPositionDistinct (splitWs (lowerStr query)) (lowerStr text) text.length maxLength)).take maxLength
      ++ (if bestPositionDistinct (splitWs (lowerStr query)) (lowerStr text) text.length maxLength + maxLength < text.length
          then excerptEllipsis else [])

/-! ## RecordStore scan (`SearchService.loadEmbeddingsFromPath`) -/

/-- The records one directory entry contributes to a scan: entries that are
directories matching `YYYY-MM-DD` contribute their `.embedding` files that
parse; everything else is skipped. -/
def loadDayRecords (parse : Str → Option EmbeddingData) (ty : EntryType)
    (e : FSEntry) : List TaggedEmbedding :=
  if e.isDir && matchesDayDir e.name then
    (e.files.filter (fun f => endsWithStr f.name ".embedding".data)).filterMap
      (fun f => (parse f.content).map (fun d => ⟨d, ty⟩))
  else []

/-- The filesystem calls the scan performs on one directory entry. -/
def loadDayEvents (basePath : Str) (e : FSEntry) : List FSEvent :=
  .statEv (pathJoin basePath e.name) ::
    (if e.isDir && matchesDayDir e.name then
      .readDirEv (pathJoin basePath e.name) ::
        (e.files.filter (fun f => endsWithStr f.name ".embedding".data)).map
          (fun f => .readFileEv (pathJoin (pathJoin basePath e.name) f.name))
    else [])

/-- `SearchService.loadEmbeddingsFromPath(basePath, type)`: scan the store
root, collecting parses of every `.embedding` sidecar in a `YYYY-MM-DD` day
directory.  A sidecar that fails to parse is skipped (the `catch` around
`JSON.parse`); a missing root yields no records (the outer `catch` of the
`ENOENT` from `fs.readdir`). -/
def loadEmbeddingsFromPath (env : Env) (basePath : Str) (store : StoreFS)
    (ty : EntryType) : List TaggedEmbedding × List FSEvent :=
  match store with
  | none => ([], [.readDirEv basePath])
  | some entries =>
    ((entries.map (loadDayRecords env.parse ty)).flatten,
      .readDirEv basePath :: (entries.map (loadDayEvents basePath)).flatten)

/-! ## Filters and ranking (`SearchService.search` / `listRecent`) -/

/-- `entryDate < dateRange.start` (both are millisecond epochs). -/
def beforeStart (r : DateRange) (ts : ℤ) : Bool :=
  match r.start with
  | some s => decide (ts < s)
  | none => false

/-- `entryDate > dateRange.end`. -/
def afterStop (r : DateRange) (ts : ℤ) : Bool :=
  match r.stop with
  | some e => decide (e < ts)
  | none => false

/-- The date-range filter shared by `search` and `listRecent`:
keep the record unless it is strictly before `start` or strictly after
`end`. -/
def dateKeep (dr : Option DateRange) (ts : ℤ) : Bool :=
  match dr with
  | none => true
  | some r => !beforeStart r ts && !afterStop r ts

/-- One requested section label matches a record
(`embeddingSection.toLowerCase().includes(section.toLowerCase())`). -/
def sectionsOk (opts : SearchOptions) (e : TaggedEmbedding) : Bool :=
  match opts.sections with
  | none => true
  | some secs =>
    if 0 < secs.length then
      secs.any (fun sec =>
        e.data.sections.any (fun es => containsStr (lowerStr es) (lowerStr sec)))
    else true

/-- The candidate filter of `search` (sections plus date range). -/
def keepCandidate (opts : SearchOptions) (e : TaggedEmbedding) : Bool :=
  sectionsOk opts e && dateKeep opts.dateRange e.data.timestamp

/-- Results ordered by non-increasing score. -/
def scoreGE (a b : SearchResult) : Prop := b.score ≤ a.score

instance : DecidableRel scoreGE := fun a b => inferInstanceAs (Decidable (b.score ≤ a.score))

instance : IsTotal SearchResult scoreGE := ⟨fun a b => le_total b.score a.score⟩

instance : IsTrans SearchResult scoreGE := ⟨fun _ _ _ h1 h2 => le_trans h2 h1⟩

/-- Candidates ordered by non-increasing timestamp. -/
def tsGE (a b : TaggedEmbedding) : Prop := b.data.timestamp ≤ a.data.timestamp

instance : DecidableRel tsGE := fun a b =>
  inferInstanceAs (Decidable (b.data.timestamp ≤ a.data.timestamp))

instance : IsTotal TaggedEmbedding tsGE := ⟨fun a b => le_total b.data.timestamp a.data.timestamp⟩

instance : IsTrans TaggedEmbedding tsGE := ⟨fun _ _ _ h1 h2 => le_trans h2 h1⟩

/-- Score one candidate (`cosineSimilarity(queryEmbedding, embedding.embedding)`)
and build its `SearchResult`; a `DimensionMismatch` aborts the whole map, as a
thrown exception does in the `.map` callback. -/
def scoreOne (env : Env) (query : Str) (qv : List ℚ) (e : TaggedEmbedding) :
    Except Str SearchResult :=
  match cosineSimilarity env.sqrtQ qv e.data.embedding with
  | .error err => .error err
  | .ok score =>
    .ok ⟨e.data.path, score, e.data.text, e.data.sections, e.data.timestamp,
      generateExcerpt e.data.text query 200, e.type⟩

/-- `.filter(result => result.score >= minScore).sort((a, b) => b.score - a.score).slice(0, limit)`. -/
def rankResults (minScore : ℚ) (limit : Nat) (scored : List SearchResult) :
    List SearchResult :=
  ((scored.filter (fun r => decide (minScore ≤ r.score))).insertionSort scoreGE).take limit

/-- Load a store when the `type` option selects it. -/
def loadSelected (env : Env) (cond : Bool) (basePath : Str) (store : StoreFS)
    (ty : EntryType) : List TaggedEmbedding × List FSEvent :=
  if cond then loadEmbeddingsFromPath env basePath store ty else ([], [])

/-- The candidate-collection step shared by `search` and `listRecent`:
load the store(s) selected by the `type` option (default `'both'`), project
store first, returning the tagged records and the trace. -/
def collectCandidates (env : Env) (opts : SearchOptions)
    (projectPath userPath : Str) (proj user : StoreFS) :
    List TaggedEmbedding × List FSEvent :=
  let t := opts.type.getD .both
  let pr := loadSelected env (decide (t = .both ∨ t = .project)) projectPath proj .project
  let ur := loadSelected env (decide (t = .both ∨ t = .user)) userPath user .user
  (pr.1 ++ ur.1, pr.2 ++ ur.2)

/-- The pure tail of `search` once the query embedding `qv` is available:
filter the candidates, score them (a `DimensionMismatch` thrown while
scoring aborts the whole operation), drop low scores, sort, truncate. -/
def searchCompute (env : Env) (query : Str) (opts : SearchOptions)
    (qv : List ℚ) (cands : List TaggedEmbedding) :
    Except Str (List SearchResult) :=
  match (cands.filter (keepCandidate opts)).mapM (scoreOne env query qv) with
  | .error e => .error e
  | .ok scored =>
    .ok (rankResults (opts.minScore.getD (1 / 10)) (opts.limit.getD 10) scored)

/-- `SearchService.search(query, options)` together with the trace of
filesystem and embedding calls it performs, in order.  Defaults: `limit` 10,
`minScore` 0.1, `type` `'both'`. -/
def search (env : Env) (query : Str) (opts : SearchOptions)
    (projectPath userPath : Str) (proj user : StoreFS) :
    Except Str (List SearchResult) × List FSEvent :=
  match env.embed query with
  | .error e => (.error e, [.embedQuery query])
  | .ok qv =>
    let c := collectCandidates env opts projectPath userPath proj user
    (searchCompute env query opts qv c.1, .embedQuery query :: c.2)

/-- `SearchService.listRecent(options)` with its trace: no embedding or
scoring, date filter only, sort by timestamp descending, truncate, constant
score `1`, empty-query excerpt of width 150. -/
def listRecent (env : Env) (opts : SearchOptions) (projectPath userPath : Str)
    (proj user : StoreFS) : List SearchResult × List FSEvent :=
  let c := collectCandidates env opts projectPath userPath proj user
  let filtered :=
    match opts.dateRange with
    | none => c.1
    | some _ => c.1.filter (fun e => dateKeep opts.dateRange e.data.timestamp)
  (((filtered.insertionSort tsGE).take (opts.limit.getD 10)).map
      (fun e => ⟨e.data.path, 1, e.data.text, e.data.sections, e.data.timestamp,
        generateExcerpt e.data.text [] 150, e.type⟩),
    c.2)

/-- `SearchService.readEntry(filePath)` with its trace: a raw read, `none`
on `ENOENT`.  The readable part of the filesystem is the `lookup` map. -/
def readEntry (lookup : Str → Option Str) (filePath : Str) :
    Option Str × List FSEvent :=
  (lookup filePath, [.readFileEv filePath])

/-! ## Reconciliation (`JournalManager`) -/

/-- `mdPath.replace(/\.md$/, '.embedding')`, at the file-name level (the
directory part of the path is unchanged by the replacement). -/
def ebNameOf (mdName : Str) : Str := mdName.take (mdName.length - 3) ++ ".embedding".data

/-- `JournalManager.extractTimestampFromPath(filePath)`: recover the note's
creation instant from `YYYY-MM-DD/HH-MM-SS-⟨6 digits⟩.md`; `none` when either
component does not match. -/
def extractTimestampFromPath (env : Env) (filePath : Str) : Option ℤ :=
  match mdStamp (stripSuffixStr (basenameStr filePath) ".md".data) with
  | none => none
  | some (h, mi, s) =>
    match dayStamp (basenameStr (dirnameStr filePath)) with
    | none => none
    | some (y, mo, d) => some (env.mkDate y mo d h mi s)

/-- `JournalManager.generateEmbeddingForEntry(filePath, content, timestamp)`:
extract the searchable text, skip silently when it trims to empty, otherwise
embed and build the sidecar record; an embedding failure is caught and
swallowed (`none`).  The caller persists the returned record. -/
def generateEmbeddingForEntry (env : Env) (filePath : Str) (content : Str)
    (timestamp : ℤ) : Option EmbeddingData :=
  if (trimChars (env.extract content).1).length = 0 then none
  else
    match env.embed (env.extract content).1 with
    | .ok embedding =>
      some ⟨embedding, (env.extract content).1, (env.extract content).2,
        timestamp, filePath⟩
    | .error _ => none

/-- State threaded through the per-day reconciliation loop. -/
structure DayStep where
  files : List FSFile
  created : List (Str × EmbeddingData)
  count : Nat
  events : List FSEvent

/-- One iteration of the inner loop of `generateMissingEmbeddings`: check
`fs.access` for the sidecar; when missing, read the note, recover its
timestamp (falling back to now), generate the record, persist it when
generation succeeded, and increment `count` either way. -/
def processDayStep (env : Env) (dayPath : Str) (acc : DayStep) (md : FSFile) :
    DayStep :=
  let mdPath := pathJoin dayPath md.name
  let ebName := ebNameOf md.name
  let ebPath := pathJoin dayPath ebName
  if acc.files.any (fun f => decide (f.name = ebName)) then
    { acc with events := acc.events ++ [.accessEv ebPath] }
  else
    let ts := (extractTimestampFromPath env mdPath).getD env.now
    match generateEmbeddingForEntry env mdPath md.content ts with
    | some d =>
      { files := acc.files ++ [⟨ebName, env.encode d⟩]
        created := acc.created ++ [(ebName, d)]
        count := acc.count + 1
        events := acc.events ++ [.accessEv ebPath, .readFileEv mdPath,
          .writeFileEv ebPath (env.encode d)] }
    | none =>
      { acc with
        count := acc.count + 1
        events := acc.events ++ [.accessEv ebPath, .readFileEv mdPath] }

/-- `files.filter(file => file.endsWith('.md'))`. -/
def mdFilesOf (files : List FSFile) : List FSFile :=
  files.filter (fun f => endsWithStr f.name ".md".data)

/-- The whole per-day loop of `generateMissingEmbeddings`. -/
def processDay (env : Env) (dayPath : Str) (files0 : List FSFile) : DayStep :=
  (mdFilesOf files0).foldl (processDayStep env dayPath) ⟨files0, [], 0, []⟩

/-- One directory entry of a store root under reconciliation: day directories
are processed, anything else is skipped after the `stat`. -/
def processEntry (env : Env) (basePath : Str) (e : FSEntry) :
    FSEntry × List (Str × EmbeddingData) × Nat × List FSEvent :=
  let dayPath := pathJoin basePath e.name
  if e.isDir && matchesDayDir e.name then
    let d := processDay env dayPath e.files
    (⟨e.name, e.isDir, d.files⟩, d.created, d.count,
      .statEv dayPath :: .readDirEv dayPath :: d.events)
  else (e, [], 0, [.statEv dayPath])

/-- Result of reconciling one store root. -/
structure StoreResult where
  store : StoreFS
  created : List (Str × EmbeddingData)
  count : Nat
  events : List FSEvent

/-- Reconcile one store root; a missing root (`ENOENT`) is skipped. -/
def processStore (env : Env) (basePath : Str) (store : StoreFS) : StoreResult :=
  match store with
  | none => ⟨none, [], 0, [.readDirEv basePath]⟩
  | some entries =>
    let rs := entries.map (processEntry env basePath)
    ⟨some (rs.map (fun r => r.1)), (rs.map (fun r => r.2.1)).flatten,
      (rs.map (fun r => r.2.2.1)).sum, .readDirEv basePath :: (rs.map (fun r => r.2.2.2)).flatten⟩

/-- Result of `JournalManager.generateMissingEmbeddings()` over the two
configured store roots. -/
structure ReconcileResult where
  proj : StoreFS
  user : StoreFS
  created : List (Str × EmbeddingData)
  count : Nat
  events : List FSEvent

/-- `JournalManager.generateMissingEmbeddings()`: walk the project store then
the user store, creating the missing sidecars, and return the new store
states, the records created (sidecar file name and data), the returned
`count`, and the trace. -/
def generateMissingEmbeddings (env : Env) (projectPath userPath : Str)
    (proj user : StoreFS) : ReconcileResult :=
  let rp := processStore env projectPath proj
  let ru := processStore env userPath user
  ⟨rp.store, ru.store, rp.created ++ ru.created, rp.count + ru.count,
    rp.events ++ ru.events⟩

/-- Run reconciliation twice in succession over the same roots, the second
run seeing the stores the first run produced. -/
def reconcileTwice (env : Env) (projectPath userPath : Str)
    (proj user : StoreFS) : ReconcileResult × ReconcileResult :=
  let r1 := generateMissingEmbeddings env projectPath userPath proj user
  (r1, generateMissingEmbeddings env projectPath userPath r1.proj r1.user)

/-! ## Pointwise description of reconciliation (used to state C3) -/

/-- The record `generateMissingEmbeddings` would generate for one note file
of a day directory. -/
def genOf (env : Env) (dayPath : Str) (md : FSFile) : Option EmbeddingData :=
  generateEmbeddingForEntry env (pathJoin dayPath md.name) md.content
    ((extractTimestampFromPath env (pathJoin dayPath md.name)).getD env.now)

/-- The notes of a day directory that lack their sidecar: exactly the ones
reconciliation attempts (and counts). -/
def attemptedOfDay (files0 : List FSFile) : List FSFile :=
  (mdFilesOf files0).filter
    (fun md => !(files0.any (fun f => decide (f.name = ebNameOf md.name))))

/-- The records a day directory's reconciliation creates: the attempted notes
whose generation succeeds. -/
def createdOfDay (env : Env) (dayPath : Str) (files0 : List FSFile) :
    List (Str × EmbeddingData) :=
  (attemptedOfDay files0).filterMap
    (fun md => (genOf env dayPath md).map (fun d => (ebNameOf md.name, d)))

/-- Attempted-note count of one directory entry. -/
def attemptedOfEntry (e : FSEntry) : Nat :=
  if e.isDir && matchesDayDir e.name then (attemptedOfDay e.files).length else 0

/-- Created records of one directory entry. -/
def createdOfEntry (env : Env) (basePath : Str) (e : FSEntry) :
    List (Str × EmbeddingData) :=
  if e.isDir && matchesDayDir e.name then
    createdOfDay env (pathJoin basePath e.name) e.files
  else []

/-- Attempted-note count of a store root. -/
def attemptedOfStore (store : StoreFS) : Nat :=
  match store with
  | none => 0
  | some entries => (entries.map attemptedOfEntry).sum

/-- Created records of a store root. -/
def createdOfStore (env : Env) (basePath : Str) (store : StoreFS) :
    List (Str × EmbeddingData) :=
  match store with
  | none => []
  | some entries => (entries.map (createdOfEntry env basePath)).flatten

/-- Every file listing of a day directory has distinct file names (always
true of a real directory). -/
def storeNamesNodup : StoreFS → Bool
  | none => true
  | some entries => entries.all (fun e => decide ((e.files.map (fun f => f.name)).Nodup))

deriving instance DecidableEq for Except

/-! ## Concrete fixtures used by witnesses and counterexamples -/

/-- A concrete sidecar record. -/
def recA : EmbeddingData := ⟨[1], "hi".data, ["Feelings".data], 5, "p1".data⟩

/-- A second concrete sidecar record. -/
def recB : EmbeddingData := ⟨[1], "ok".data, [], 7, "p2".data⟩

/-- An environment whose parser accepts the contents `"R1"` and `"R2"`
and rejects everything else, and whose embedder returns `[1]`. -/
def envScan : Env :=
  ⟨fun _ => ([], []), fun _ => .ok [1],
    fun c => if c = "R1".data then some recA
      else if c = "R2".data then some recB else none,
    fun _ => "E".data, id, fun _ _ _ _ _ _ => 0, 0⟩

/-- A store holding one day directory with one parsable sidecar and one
corrupt one. -/
def storeRank : StoreFS :=
  some [⟨"2025-01-01".data, true,
    [⟨"a.embedding".data, "R1".data⟩, ⟨"b.embedding".data, "bad".data⟩]⟩]

/-- The result `search` returns on `envScan` / `storeRank` for query `"q"`. -/
def expectedRank : List SearchResult :=
  [⟨"p1".data, 1, "hi".data, ["Feelings".data], 5, "hi".data, .project⟩]

/-- An environment whose text extraction always yields empty text. -/
def envEmptyText : Env :=
  ⟨fun _ => ([], []), fun _ => .ok [1], fun _ => none, fun _ => "E".data,
    id, fun _ _ _ _ _ _ => 0, 0⟩

/-- An environment whose embedder always fails. -/
def envFailEmbed : Env :=
  ⟨fun _ => ("t".data, []), fun _ => .error "boom".data, fun _ => none,
    fun _ => "E".data, id, fun _ _ _ _ _ _ => 0, 0⟩

/-- An environment where extraction and embedding always succeed. -/
def envGoodEmbed : Env :=
  ⟨fun _ => ("t".data, []), fun _ => .ok [1], fun _ => none,
    fun _ => "E".data, id, fun _ _ _ _ _ _ => 0, 0⟩

/-- A store holding one day directory with a single note file and no
sidecar. -/
def storeOneNote : StoreFS :=
  some [⟨"2025-01-01".data, true, [⟨"10-00-00-000000.md".data, "x".data⟩]⟩]

/-! ## Helper lemmas -/

theorem loadDayEvents_no_write (basePath : Str) (e : FSEntry) :
    ∀ ev ∈ loadDayEvents basePath e, ev.isWriteEvent = false := by
  intro ev hev
  unfold loadDayEvents at hev
  rw [List.mem_cons] at hev
  rcases hev with rfl | hev
  · simp [FSEvent.isWriteEvent]
  · split at hev
    · rw [List.mem_cons] at hev
      rcases hev with rfl | hev
      · simp [FSEvent.isWriteEvent]
      · obtain ⟨f, _, rfl⟩ := List.mem_map.mp hev
        simp [FSEvent.isWriteEvent]
    · simp at hev

theorem loadEmbeddingsFromPath_no_write (env : Env) (basePath : Str)
    (store : StoreFS) (ty : EntryType) :
    ∀ ev ∈ (loadEmbeddingsFromPath env basePath store ty).2, ev.isWriteEvent = false := by
  intro ev hev
  rcases store with _ | entries
  · simp [loadEmbeddingsFromPath] at hev
    simp [hev, FSEvent.isWriteEvent]
  · simp only [loadEmbeddingsFromPath, List.mem_cons] at hev
    rcases hev with rfl | hev
    · simp [FSEvent.isWriteEvent]
    · obtain ⟨l, hl, hevl⟩ := List.mem_flatten.mp hev
      obtain ⟨e, _, rfl⟩ := List.mem_map.mp hl
      exact loadDayEvents_no_write basePath e ev hevl

theorem loadSelected_no_write (env : Env) (cond : Bool) (basePath : Str)
    (store : StoreFS) (ty : EntryType) :
    ∀ ev ∈ (loadSelected env cond basePath store ty).2, ev.isWriteEvent = false := by
  intro ev hev
  unfold loadSelected at hev
  split at hev
  · exact loadEmbeddingsFromPath_no_write env basePath store ty ev hev
  · simp at hev

theorem collectCandidates_no_write (env : Env) (opts : SearchOptions)
    (projectPath userPath : Str) (proj user : StoreFS) :
    ∀ ev ∈ (collectCandidates env opts projectPath userPath proj user).2,
      ev.isWriteEvent = false := by
  intro ev hev
  unfold collectCandidates at hev
  simp only [List.mem_append] at hev
  rcases hev with hev | hev
  · exact loadSelected_no_write env _ projectPath proj .project ev hev
  · exact loadSelected_no_write env _ userPath user .user ev hev

theorem rankResults_spec (minSc : ℚ) (limit : Nat) (scored : List SearchResult) :
    (∀ r ∈ rankResults minSc limit scored, minSc ≤ r.score)
    ∧ (rankResults minSc limit scored).Sorted scoreGE
    ∧ (rankResults minSc limit scored).length ≤ limit := by
  refine ⟨?_, ?_, ?_⟩
  · intro r hr
    have h1 : r ∈ (scored.filter (fun r => decide (minSc ≤ r.score))).insertionSort scoreGE :=
      List.mem_of_mem_take hr
    have h2 : r ∈ scored.filter (fun r => decide (minSc ≤ r.score)) :=
      (List.perm_insertionSort scoreGE _).mem_iff.mp h1
    have := List.of_mem_filter h2
    simp at this
    exact this
  · exact List.Pairwise.sublist (List.take_sublist _ _)
      (List.sorted_insertionSort scoreGE _)
  · rw [rankResults, List.length_take]
    exact Nat.min_le_left limit _

/-! ## Claim C6 -/

/-- C6: for every pair of equal-length vectors in which at least one vector
has zero norm (zero sum of squares), `cosineSimilarity` returns exactly `0`
(and in this model of the floats, no `NaN` value even exists to return). -/
theorem cosineSimilarity_zero_norm (sqrtQ : ℚ → ℚ) (a b : List ℚ)
    (hlen : a.length = b.length) (hz : normSq a = 0 ∨ normSq b = 0) :
    cosineSimilarity sqrtQ a b = .ok 0 := by
  unfold cosineSimilarity
  rw [if_pos hlen, if_pos hz]

/-- Witness for C6 at the zero vector against `[3, 4]`. -/
theorem cosineSimilarity_zero_norm_witness :
    cosineSimilarity id [0, 0] [3, 4] = .ok 0 :=
  cosineSimilarity_zero_norm id [0, 0] [3, 4] (by decide)
    (by with_unfolding_all decide)

/-! ## Claim C7 -/

/-- C7: `search` is all-or-nothing with respect to the query embedding:
when embedding the query fails, the whole operation fails with that error,
and the trace shows no store was read (no candidate loaded or scored) —
the only call performed is the failed embedding itself. -/
theorem search_all_or_nothing (env : Env) (query : Str) (opts : SearchOptions)
    (projectPath userPath : Str) (proj user : StoreFS) (e : Str)
    (h : env.embed query = .error e) :
    (search env query opts projectPath userPath proj user).1 = .error e
    ∧ (search env query opts projectPath userPath proj user).2 = [.embedQuery query] := by
  unfold search
  rw [h]
  exact ⟨rfl, rfl⟩

/-- Witness for C7 with an embedding backend that always fails. -/
theorem search_all_or_nothing_witness :
    (search ⟨fun _ => ([], []), fun _ => .error "model load failed".data,
        fun _ => none, fun _ => [], id, fun _ _ _ _ _ _ => 0, 0⟩
      "q".data {} "P".data "U".data none none).1 = .error "model load failed".data
    ∧ (search ⟨fun _ => ([], []), fun _ => .error "model load failed".data,
        fun _ => none, fun _ => [], id, fun _ _ _ _ _ _ => 0, 0⟩
      "q".data {} "P".data "U".data none none).2 = [.embedQuery "q".data] :=
  search_all_or_nothing _ "q".data {} "P".data "U".data none none
    "model load failed".data rfl

/-! ## Claim C9 -/

/-- C9: the read operations are pure with respect to the stores: the traces
of `search`, `listRecent` and `readEntry` contain only embedding calls and
read calls (`readdir`, `stat`, `readFile`), never a write — so no note file
and no sidecar record is created, modified or deleted by them. -/
theorem read_operations_no_write (env : Env) (query : Str) (opts : SearchOptions)
    (projectPath userPath : Str) (proj user : StoreFS)
    (lookup : Str → Option Str) (p : Str) :
    (∀ ev ∈ (search env query opts projectPath userPath proj user).2,
      ev.isWriteEvent = false)
    ∧ (∀ ev ∈ (listRecent env opts projectPath userPath proj user).2,
      ev.isWriteEvent = false)
    ∧ (∀ ev ∈ (readEntry lookup p).2, ev.isWriteEvent = false) := by
  refine ⟨?_, ?_, ?_⟩
  · intro ev hev
    unfold search at hev
    rcases h : env.embed query with e | qv <;> rw [h] at hev
    · simp at hev
      simp [hev, FSEvent.isWriteEvent]
    · simp only [List.mem_cons] at hev
      rcases hev with rfl | hev
      · simp [FSEvent.isWriteEvent]
      · exact collectCandidates_no_write env opts projectPath userPath proj user ev hev
  · intro ev hev
    unfold listRecent at hev
    exact collectCandidates_no_write env opts projectPath userPath proj user ev hev
  · intro ev hev
    simp [readEntry] at hev
    simp [hev, FSEvent.isWriteEvent]

/-! ## Claim C1 -/

/-- C1: whenever `search` returns a result list, every element's score is at
least `minScore` (default 1/10), the list is sorted in non-increasing order
of score, and its length is at most `limit` (default 10). -/
theorem search_ranked (env : Env) (query : Str) (opts : SearchOptions)
    (projectPath userPath : Str) (proj user : StoreFS) (rs : List SearchResult)
    (h : (search env query opts projectPath userPath proj user).1 = .ok rs) :
    (∀ r ∈ rs, opts.minScore.getD (1 / 10) ≤ r.score)
    ∧ rs.Sorted scoreGE
    ∧ rs.length ≤ opts.limit.getD 10 := by
  unfold search at h
  rcases he : env.embed query with e | qv <;> rw [he] at h
  · simp at h
  · simp only [Prod.fst] at h
    unfold searchCompute at h
    rcases hm : ((collectCandidates env opts projectPath userPath proj
        user).1.filter (keepCandidate opts)).mapM (scoreOne env query qv) with e | scored <;>
      rw [hm] at h
    · simp at h
    · rw [Except.ok.injEq] at h
      subst h
      exact rankResults_spec _ _ _

/-- Witness for C1: a concrete search over one parsable and one corrupt
sidecar returns a list satisfying the three ranking properties. -/
theorem search_ranked_witness :
    (∀ r ∈ expectedRank, (({} : SearchOptions)).minScore.getD (1 / 10) ≤ r.score)
    ∧ expectedRank.Sorted scoreGE
    ∧ expectedRank.length ≤ ({} : SearchOptions).limit.getD 10 :=
  search_ranked envScan "q".data {} "P".data "U".data storeRank none
    expectedRank (by with_unfolding_all decide)

/-! ## Claim C10 -/

/-- C10 counterexample: with the degenerate range `start = 5`, `end = 3`, a
record whose timestamp equals exactly `dateRange.start` is dropped by the
date filter (it is strictly after `end`), so the claim as stated — every
record with timestamp equal to `start` or `end` is retained — is false. -/
theorem dateKeep_boundary_counterexample :
    dateKeep (some ⟨some 5, some 3⟩) 5 = false := by decide

/-- C10 amended: the date filter of `search` and `listRecent` (both call
`dateKeep`) drops a record exactly when its timestamp is strictly before
`start` or strictly after `end`; consequently a record whose timestamp
equals `start` or `end` is retained whenever the supplied range is
non-degenerate (`start ≤ end`, or only one bound present).  The last
conjunct ties `dateKeep` to the candidate filter of `search`. -/
theorem dateKeep_inclusive :
    (∀ (dr : DateRange) (ts : ℤ), dateKeep (some dr) ts = false ↔
        (∃ s, dr.start = some s ∧ ts < s) ∨ (∃ e, dr.stop = some e ∧ e < ts))
    ∧ (∀ s e : ℤ, s ≤ e → dateKeep (some ⟨some s, some e⟩) s = true
        ∧ dateKeep (some ⟨some s, some e⟩) e = true)
    ∧ (∀ s : ℤ, dateKeep (some ⟨some s, none⟩) s = true)
    ∧ (∀ e : ℤ, dateKeep (some ⟨none, some e⟩) e = true)
    ∧ (∀ (opts : SearchOptions) (emb : TaggedEmbedding),
        keepCandidate opts emb = true →
          dateKeep opts.dateRange emb.data.timestamp = true) := by
  refine ⟨?_, ?_, ?_, ?_, ?_⟩
  · intro dr ts
    rcases dr with ⟨s | s, e | e⟩ <;>
      · simp only [dateKeep, beforeStart, afterStop]
        simp
        try omega
  · intro s e hse
    constructor <;>
      · simp [dateKeep, beforeStart, afterStop]
        omega
  · intro s
    simp [dateKeep, beforeStart, afterStop]
  · intro e
    simp [dateKeep, beforeStart, afterStop]
  · intro opts emb h
    exact (Bool.and_eq_true _ _ |>.mp h).2

/-- Witness for C10 amended at the range `[0, 1]` and the candidate filter
with no options. -/
theorem dateKeep_inclusive_witness :
    (dateKeep (some ⟨some 0, some 1⟩) 0 = true
      ∧ dateKeep (some ⟨some 0, some 1⟩) 1 = true)
    ∧ dateKeep (({} : SearchOptions)).dateRange (⟨recA, .project⟩ : TaggedEmbedding).data.timestamp = true :=
  ⟨dateKeep_inclusive.2.1 0 1 (by decide),
    dateKeep_inclusive.2.2.2.2 {} ⟨recA, .project⟩ (by decide)⟩

/-! ## Claim C5 -/

/-- C5: a missing store root yields an empty record list rather than an
error; the scan returns exactly the records whose sidecar files (in
`YYYY-MM-DD` day directories) parse successfully; and an individual sidecar
that fails to parse is skipped without affecting any other record of the
scan. -/
theorem loadEmbeddingsFromPath_skips (env : Env) (basePath : Str)
    (ty : EntryType) (pre post : List FSEntry) (nm : Str)
    (files1 files2 : List FSFile) (bad : FSFile)
    (hbad : env.parse bad.content = none) :
    (loadEmbeddingsFromPath env basePath none ty).1 = []
    ∧ (∀ entries r, r ∈ (loadEmbeddingsFromPath env basePath (some entries) ty).1 ↔
        ∃ e ∈ entries, e.isDir = true ∧ matchesDayDir e.name = true ∧
          ∃ f ∈ e.files, endsWithStr f.name ".embedding".data = true ∧
            env.parse f.content = some r.data ∧ r.type = ty)
    ∧ (loadEmbeddingsFromPath env basePath
        (some (pre ++ ⟨nm, true, files1 ++ bad :: files2⟩ :: post)) ty).1
      = (loadEmbeddingsFromPath env basePath
        (some (pre ++ ⟨nm, true, files1 ++ files2⟩ :: post)) ty).1 := by
  refine ⟨rfl, ?_, ?_⟩
  · intro entries r
    constructor
    · intro hr
      simp only [loadEmbeddingsFromPath, List.mem_flatten, List.mem_map] at hr
      obtain ⟨l, ⟨e, he, rfl⟩, hrl⟩ := hr
      unfold loadDayRecords at hrl
      split at hrl
      · rename_i hcond
        rw [Bool.and_eq_true] at hcond
        obtain ⟨f, hf, hparse⟩ := List.mem_filterMap.mp hrl
        obtain ⟨d, hd, rfl⟩ := Option.map_eq_some'.mp hparse
        obtain ⟨hfmem, hfsuf⟩ := List.mem_filter.mp hf
        exact ⟨e, he, hcond.1, hcond.2, f, hfmem, hfsuf, hd, rfl⟩
      · simp at hrl
    · intro ⟨e, he, hdir, hday, f, hf, hsuf, hparse, hty⟩
      simp only [loadEmbeddingsFromPath, List.mem_flatten, List.mem_map]
      refine ⟨loadDayRecords env.parse ty e, ⟨e, he, rfl⟩, ?_⟩
      unfold loadDayRecords
      rw [if_pos (by rw [hdir, hday]; rfl)]
      refine List.mem_filterMap.mpr ⟨f, List.mem_filter.mpr ⟨hf, hsuf⟩, ?_⟩
      rw [hparse]
      cases r
      simp at hty
      simp [hty]
  · simp only [loadEmbeddingsFromPath, List.map_append, List.map_cons,
      List.flatten_append, List.flatten_cons]
    unfold loadDayRecords
    by_cases hday : matchesDayDir nm
    · simp only [hday, Bool.and_self, if_pos]
      rw [List.filter_append, List.filter_append, List.filter_cons]
      by_cases hsuf : endsWithStr bad.name ".embedding".data
      · simp only [hsuf, if_pos]
        rw [List.filterMap_append, List.filterMap_append, List.filterMap_cons]
        simp [hbad]
      · simp [hsuf]
    · simp [hday]

/-- Witness for C5: the spec's scenario — one corrupt sidecar between two
valid ones — yields exactly the two valid records, and a missing root
yields none. -/
theorem loadEmbeddingsFromPath_skips_witness :
    (loadEmbeddingsFromPath envScan "P".data none .project).1 = []
    ∧ (∀ entries r, r ∈ (loadEmbeddingsFromPath envScan "P".data (some entries) .project).1 ↔
        ∃ e ∈ entries, e.isDir = true ∧ matchesDayDir e.name = true ∧
          ∃ f ∈ e.files, endsWithStr f.name ".embedding".data = true ∧
            envScan.parse f.content = some r.data ∧ r.type = .project)
    ∧ (loadEmbeddingsFromPath envScan "P".data
        (some ([] ++ ⟨"2025-01-01".data, true,
          [⟨"a.embedding".data, "R1".data⟩]
            ++ ⟨"b.embedding".data, "corrupt".data⟩ :: [⟨"c.embedding".data, "R2".data⟩]⟩ :: [])) .project).1
      = (loadEmbeddingsFromPath envScan "P".data
        (some ([] ++ ⟨"2025-01-01".data, true,
          [⟨"a.embedding".data, "R1".data⟩] ++ [⟨"c.embedding".data, "R2".data⟩]⟩ :: [])) .project).1 :=
  loadEmbeddingsFromPath_skips envScan "P".data .project [] []
    "2025-01-01".data [⟨"a.embedding".data, "R1".data⟩]
    [⟨"c.embedding".data, "R2".data⟩] ⟨"b.embedding".data, "corrupt".data⟩
    (by decide)

/-! ## Reconciliation: fold lemmas -/

theorem processDayStep_eq (env : Env) (dayPath : Str) (acc : DayStep) (md : FSFile) :
    processDayStep env dayPath acc md =
      if acc.files.any (fun f => decide (f.name = ebNameOf md.name)) then
        { acc with events := acc.events ++ [.accessEv (pathJoin dayPath (ebNameOf md.name))] }
      else
        match genOf env dayPath md with
        | some d =>
          { files := acc.files ++ [⟨ebNameOf md.name, env.encode d⟩]
            created := acc.created ++ [(ebNameOf md.name, d)]
            count := acc.count + 1
            events := acc.events ++ [.accessEv (pathJoin dayPath (ebNameOf md.name)),
              .readFileEv (pathJoin dayPath md.name),
              .writeFileEv (pathJoin dayPath (ebNameOf md.name)) (env.encode d)] }
        | none =>
          { acc with
            count := acc.count + 1
            events := acc.events ++ [.accessEv (pathJoin dayPath (ebNameOf md.name)),
              .readFileEv (pathJoin dayPath md.name)] } := rfl

theorem processDayGo_files (env : Env) (dayPath : Str) (ms : List FSFile) :
    ∀ acc : DayStep, ∃ ex : List FSFile,
      (ms.foldl (processDayStep env dayPath) acc).files = acc.files ++ ex
      ∧ ∀ f ∈ ex, ∃ md, md ∈ ms ∧ f.name = ebNameOf md.name := by
  induction ms with
  | nil => intro acc; exact ⟨[], by simp, by simp⟩
  | cons md rest ih =>
    intro acc
    rw [List.foldl_cons, processDayStep_eq]
    by_cases hskip : acc.files.any (fun f => decide (f.name = ebNameOf md.name))
    · rw [if_pos hskip]
      obtain ⟨ex, hex, hall⟩ := ih _
      exact ⟨ex, hex, fun f hf => by
        obtain ⟨m, hm, hn⟩ := hall f hf
        exact ⟨m, List.mem_cons_of_mem _ hm, hn⟩⟩
    · rw [if_neg hskip]
      rcases hg : genOf env dayPath md with _ | d
      · obtain ⟨ex, hex, hall⟩ := ih _
        exact ⟨ex, hex, fun f hf => by
          obtain ⟨m, hm, hn⟩ := hall f hf
          exact ⟨m, List.mem_cons_of_mem _ hm, hn⟩⟩
      · obtain ⟨ex, hex, hall⟩ := ih _
        refine ⟨⟨ebNameOf md.name, env.encode d⟩ :: ex, ?_, ?_⟩
        · rw [hex]
          simp
        · intro f hf
          rw [List.mem_cons] at hf
          rcases hf with rfl | hf
          · exact ⟨md, List.mem_cons_self _ _, rfl⟩
          · obtain ⟨m, hm, hn⟩ := hall f hf
            exact ⟨m, List.mem_cons_of_mem _ hm, hn⟩

theorem processDayGo_settles (env : Env) (dayPath : Str) (ms : List FSFile) :
    ∀ acc : DayStep, ∀ md ∈ ms,
      (ms.foldl (processDayStep env dayPath) acc).files.any
          (fun f => decide (f.name = ebNameOf md.name)) = true
      ∨ genOf env dayPath md = none := by
  induction ms with
  | nil => intro acc md hmd; simp at hmd
  | cons md0 rest ih =>
    intro acc md hmd
    rw [List.mem_cons] at hmd
    rw [List.foldl_cons, processDayStep_eq]
    rcases hmd with rfl | hmd
    · by_cases hskip : acc.files.any (fun f => decide (f.name = ebNameOf md.name))
      · rw [if_pos hskip]
        left
        obtain ⟨ex, hex, -⟩ := processDayGo_files env dayPath rest _
        rw [List.any_eq_true]
        rw [List.any_eq_true] at hskip
        obtain ⟨f, hf, hp⟩ := hskip
        refine ⟨f, ?_, hp⟩
        rw [hex]
        apply List.mem_append_left
        exact hf
      · rw [if_neg hskip]
        rcases hg : genOf env dayPath md with _ | d
        · right; rfl
        · left
          obtain ⟨ex, hex, -⟩ := processDayGo_files env dayPath rest _
          rw [List.any_eq_true]
          refine ⟨⟨ebNameOf md.name, env.encode d⟩, ?_, by simp⟩
          rw [hex]
          apply List.mem_append_left
          show _ ∈ acc.files ++ [(⟨ebNameOf md.name, env.encode d⟩ : FSFile)]
          simp
    · by_cases hskip : acc.files.any (fun f => decide (f.name = ebNameOf md0.name))
      · rw [if_pos hskip]
        exact ih _ md hmd
      · rw [if_neg hskip]
        rcases hg : genOf env dayPath md0 with _ | d
        · exact ih _ md hmd
        · exact ih _ md hmd

theorem processDayGo_created (env : Env) (dayPath : Str) (ms : List FSFile) :
    ∀ acc : DayStep, ∀ nd ∈ (ms.foldl (processDayStep env dayPath) acc).created,
      nd ∈ acc.created
      ∨ ∃ md, md ∈ ms ∧ genOf env dayPath md = some nd.2 ∧ nd.1 = ebNameOf md.name := by
  induction ms with
  | nil => intro acc nd hnd; exact Or.inl hnd
  | cons md0 rest ih =>
    intro acc nd hnd
    rw [List.foldl_cons, processDayStep_eq] at hnd
    by_cases hskip : acc.files.any (fun f => decide (f.name = ebNameOf md0.name))
    · rw [if_pos hskip] at hnd
      rcases ih _ nd hnd with h | ⟨m, hm, hg, hn⟩
      · exact Or.inl h
      · exact Or.inr ⟨m, List.mem_cons_of_mem _ hm, hg, hn⟩
    · rw [if_neg hskip] at hnd
      rcases hg0 : genOf env dayPath md0 with _ | d
      · rw [hg0] at hnd
        rcases ih _ nd hnd with h | ⟨m, hm, hg, hn⟩
        · exact Or.inl h
        · exact Or.inr ⟨m, List.mem_cons_of_mem _ hm, hg, hn⟩
      · rw [hg0] at hnd
        rcases ih _ nd hnd with h | ⟨m, hm, hg, hn⟩
        · have h' : nd ∈ acc.created ++ [(ebNameOf md0.name, d)] := h
          rw [List.mem_append] at h'
          rcases h' with h' | h'
          · exact Or.inl h'
          · rw [List.mem_singleton] at h'
            subst h'
            exact Or.inr ⟨md0, List.mem_cons_self _ _, hg0, rfl⟩
        · exact Or.inr ⟨m, List.mem_cons_of_mem _ hm, hg, hn⟩

theorem processDayGo_noop (env : Env) (dayPath : Str) (ms : List FSFile) :
    ∀ acc : DayStep,
      (∀ md ∈ ms, acc.files.any (fun f => decide (f.name = ebNameOf md.name)) = true
        ∨ genOf env dayPath md = none) →
      (ms.foldl (processDayStep env dayPath) acc).files = acc.files
      ∧ (ms.foldl (processDayStep env dayPath) acc).created = acc.created := by
  induction ms with
  | nil => intro acc _; exact ⟨rfl, rfl⟩
  | cons md0 rest ih =>
    intro acc h
    rw [List.foldl_cons, processDayStep_eq]
    by_cases hskip : acc.files.any (fun f => decide (f.name = ebNameOf md0.name))
    · rw [if_pos hskip]
      exact ih _ (fun md hmd => h md (List.mem_cons_of_mem _ hmd))
    · rw [if_neg hskip]
      rcases h md0 (List.mem_cons_self _ _) with h0 | h0
      · exact absurd h0 hskip
      · rcases hg0 : genOf env dayPath md0 with _ | d
        · exact ih _ (fun md hmd => h md (List.mem_cons_of_mem _ hmd))
        · rw [hg0] at h0
          simp at h0

theorem processDayGo_skip_all (env : Env) (dayPath : Str) (ms : List FSFile) :
    ∀ acc : DayStep,
      (∀ md ∈ ms, acc.files.any (fun f => decide (f.name = ebNameOf md.name)) = true) →
      (ms.foldl (processDayStep env dayPath) acc).files = acc.files
      ∧ (ms.foldl (processDayStep env dayPath) acc).created = acc.created
      ∧ (ms.foldl (processDayStep env dayPath) acc).count = acc.count := by
  induction ms with
  | nil => intro acc _; exact ⟨rfl, rfl, rfl⟩
  | cons md0 rest ih =>
    intro acc h
    rw [List.foldl_cons, processDayStep_eq,
      if_pos (h md0 (List.mem_cons_self _ _))]
    exact ih _ (fun md hmd => h md (List.mem_cons_of_mem _ hmd))

theorem ebNameOf_not_md (n : Str) : endsWithStr (ebNameOf n) ".md".data = false := by
  unfold endsWithStr ebNameOf
  rw [decide_eq_false_iff_not]
  intro h
  have h2 : ".embedding".data <:+ n.take (n.length - 3) ++ ".embedding".data :=
    List.suffix_append _ _
  rcases List.suffix_or_suffix_of_suffix h h2 with h3 | h3
  · exact absurd h3 (by decide)
  · exact absurd h3.length_le (by decide)

theorem mdFilesOf_append_ebs (files0 ex : List FSFile)
    (hex : ∀ f ∈ ex, ∃ md, md ∈ mdFilesOf files0 ∧ f.name = ebNameOf md.name) :
    mdFilesOf (files0 ++ ex) = mdFilesOf files0 := by
  unfold mdFilesOf
  rw [List.filter_append]
  have : ex.filter (fun f => endsWithStr f.name ".md".data) = [] := by
    rw [List.filter_eq_nil_iff]
    intro f hf
    obtain ⟨md, -, hn⟩ := hex f hf
    rw [hn, ebNameOf_not_md]
    simp
  rw [this, List.append_nil]

theorem generateEmbeddingForEntry_empty (env : Env) (filePath content : Str)
    (ts : ℤ) (h : (trimChars (env.extract content).1).length = 0) :
    generateEmbeddingForEntry env filePath content ts = none := by
  unfold generateEmbeddingForEntry
  rw [if_pos h]

theorem generateEmbeddingForEntry_text (env : Env) (filePath content : Str)
    (ts : ℤ) (d : EmbeddingData)
    (h : generateEmbeddingForEntry env filePath content ts = some d) :
    (trimChars d.text).length ≠ 0 := by
  unfold generateEmbeddingForEntry at h
  split at h
  · simp at h
  · rcases he : env.embed (env.extract content).1 with e | v <;> rw [he] at h
    · simp at h
    · rw [Option.some.injEq] at h
      subst h
      rename_i hne
      exact hne

theorem generateEmbeddingForEntry_total (env : Env)
    (hsucc : ∀ s : Str, (trimChars (env.extract s).1).length ≠ 0
      ∧ embedOk (env.embed (env.extract s).1) = true) :
    ∀ (filePath content : Str) (ts : ℤ),
      generateEmbeddingForEntry env filePath content ts ≠ none := by
  intro filePath content ts
  unfold generateEmbeddingForEntry
  obtain ⟨ht, he⟩ := hsucc content
  rw [if_neg ht]
  rcases hemb : env.embed (env.extract content).1 with e | v
  · rw [hemb] at he
    simp [embedOk] at he
  · simp

theorem processDay_files (env : Env) (dayPath : Str) (files0 : List FSFile) :
    ∃ ex : List FSFile,
      (processDay env dayPath files0).files = files0 ++ ex
      ∧ ∀ f ∈ ex, ∃ md, md ∈ mdFilesOf files0 ∧ f.name = ebNameOf md.name := by
  obtain ⟨ex, hex, hall⟩ :=
    processDayGo_files env dayPath (mdFilesOf files0) ⟨files0, [], 0, []⟩
  exact ⟨ex, hex, hall⟩

theorem processDay_mdFiles_stable (env : Env) (dayPath : Str) (files0 : List FSFile) :
    mdFilesOf (processDay env dayPath files0).files = mdFilesOf files0 := by
  obtain ⟨ex, hex, hall⟩ := processDay_files env dayPath files0
  rw [hex]
  exact mdFilesOf_append_ebs files0 ex hall

theorem processDay_idem (env : Env) (dayPath : Str) (files0 : List FSFile) :
    (processDay env dayPath (processDay env dayPath files0).files).files
        = (processDay env dayPath files0).files
    ∧ (processDay env dayPath (processDay env dayPath files0).files).created = []
    ∧ ((∀ (p c : Str) (t : ℤ), generateEmbeddingForEntry env p c t ≠ none) →
        (processDay env dayPath (processDay env dayPath files0).files).count = 0) := by
  have hstable := processDay_mdFiles_stable env dayPath files0
  have hsettle : ∀ md ∈ mdFilesOf files0,
      (processDay env dayPath files0).files.any
        (fun f => decide (f.name = ebNameOf md.name)) = true
      ∨ genOf env dayPath md = none :=
    fun md hmd => processDayGo_settles env dayPath (mdFilesOf files0) _ md hmd
  refine ⟨?_, ?_, ?_⟩
  · have := processDayGo_noop env dayPath (mdFilesOf (processDay env dayPath files0).files)
      ⟨(processDay env dayPath files0).files, [], 0, []⟩
      (by rw [hstable]; exact hsettle)
    exact this.1
  · have := processDayGo_noop env dayPath (mdFilesOf (processDay env dayPath files0).files)
      ⟨(processDay env dayPath files0).files, [], 0, []⟩
      (by rw [hstable]; exact hsettle)
    exact this.2
  · intro htotal
    have hall : ∀ md ∈ mdFilesOf (processDay env dayPath files0).files,
        ((processDay env dayPath files0).files).any
          (fun f => decide (f.name = ebNameOf md.name)) = true := by
      rw [hstable]
      intro md hmd
      rcases hsettle md hmd with h | h
      · exact h
      · exact absurd h (htotal _ _ _)
    have := processDayGo_skip_all env dayPath
      (mdFilesOf (processDay env dayPath files0).files)
      ⟨(processDay env dayPath files0).files, [], 0, []⟩ hall
    exact this.2.2

theorem processEntry_eq (env : Env) (basePath : Str) (e : FSEntry) :
    processEntry env basePath e =
      if e.isDir && matchesDayDir e.name then
        (⟨e.name, e.isDir, (processDay env (pathJoin basePath e.name) e.files).files⟩,
          (processDay env (pathJoin basePath e.name) e.files).created,
          (processDay env (pathJoin basePath e.name) e.files).count,
          .statEv (pathJoin basePath e.name) :: .readDirEv (pathJoin basePath e.name)
            :: (processDay env (pathJoin basePath e.name) e.files).events)
      else (e, [], 0, [.statEv (pathJoin basePath e.name)]) := rfl

theorem processEntry_idem (env : Env) (basePath : Str) (e : FSEntry) :
    ((processEntry env basePath (processEntry env basePath e).1).1
        = (processEntry env basePath e).1)
    ∧ ((processEntry env basePath (processEntry env basePath e).1).2.1 = [])
    ∧ ((∀ (p c : Str) (t : ℤ), generateEmbeddingForEntry env p c t ≠ none) →
        (processEntry env basePath (processEntry env basePath e).1).2.2.1 = 0) := by
  by_cases hm : e.isDir && matchesDayDir e.name
  · rw [processEntry_eq env basePath e, if_pos hm]
    have hm' : (⟨e.name, e.isDir,
        (processDay env (pathJoin basePath e.name) e.files).files⟩ : FSEntry).isDir
          && matchesDayDir (⟨e.name, e.isDir,
        (processDay env (pathJoin basePath e.name) e.files).files⟩ : FSEntry).name := hm
    rw [processEntry_eq, if_pos hm']
    obtain ⟨h1, h2, h3⟩ := processDay_idem env (pathJoin basePath e.name) e.files
    refine ⟨?_, h2, h3⟩
    simp only [h1]
  · rw [processEntry_eq env basePath e, if_neg hm]
    rw [processEntry_eq, if_neg hm]
    exact ⟨rfl, rfl, fun _ => rfl⟩

theorem processStore_idem (env : Env) (basePath : Str) (store : StoreFS) :
    ((processStore env basePath (processStore env basePath store).store).store
        = (processStore env basePath store).store)
    ∧ ((processStore env basePath (processStore env basePath store).store).created = [])
    ∧ ((∀ (p c : Str) (t : ℤ), generateEmbeddingForEntry env p c t ≠ none) →
        (processStore env basePath (processStore env basePath store).store).count = 0) := by
  rcases store with _ | entries
  · exact ⟨rfl, rfl, fun _ => rfl⟩
  · refine ⟨?_, ?_, ?_⟩
    · show some _ = some _
      rw [Option.some.injEq]
      simp only [List.map_map]
      apply List.map_congr_left
      intro e _
      simp only [Function.comp_apply]
      exact (processEntry_idem env basePath e).1
    · show List.flatten _ = []
      rw [List.flatten_eq_nil_iff]
      intro l hl
      simp only [List.map_map, List.mem_map, Function.comp_apply] at hl
      obtain ⟨e, -, rfl⟩ := hl
      exact (processEntry_idem env basePath e).2.1
    · intro htotal
      show List.sum _ = 0
      apply List.sum_eq_zero
      intro n hn
      simp only [List.map_map, List.mem_map, Function.comp_apply] at hn
      obtain ⟨e, -, rfl⟩ := hn
      exact (processEntry_idem env basePath e).2.2 htotal

/-! ## Claim C2 -/

/-- C2 amended: running reconcile twice creates records only on the first
run — the second run creates nothing and leaves both stores unchanged — and
the second run's returned count is 0 provided every note's normalized text
is nonempty and every embedding succeeds (otherwise the count re-counts the
notes that deliberately remained without a sidecar, see the
counterexample). -/
theorem reconcile_idempotent (env : Env) (projectPath userPath : Str)
    (proj user : StoreFS) :
    ((reconcileTwice env projectPath userPath proj user).2.proj
        = (reconcileTwice env projectPath userPath proj user).1.proj)
    ∧ ((reconcileTwice env projectPath userPath proj user).2.user
        = (reconcileTwice env projectPath userPath proj user).1.user)
    ∧ ((reconcileTwice env projectPath userPath proj user).2.created = [])
    ∧ ((∀ s : Str, (trimChars (env.extract s).1).length ≠ 0
          ∧ embedOk (env.embed (env.extract s).1) = true) →
        (reconcileTwice env projectPath userPath proj user).2.count = 0) := by
  refine ⟨?_, ?_, ?_, ?_⟩
  · exact (processStore_idem env projectPath proj).1
  · exact (processStore_idem env userPath user).1
  · show (processStore env projectPath (processStore env projectPath proj).store).created
        ++ (processStore env userPath (processStore env userPath user).store).created = []
    rw [(processStore_idem env projectPath proj).2.1,
      (processStore_idem env userPath user).2.1]
    rfl
  · intro hsucc
    have htotal := generateEmbeddingForEntry_total env hsucc
    show (processStore env projectPath (processStore env projectPath proj).store).count
        + (processStore env userPath (processStore env userPath user).store).count = 0
    rw [(processStore_idem env projectPath proj).2.2 htotal,
      (processStore_idem env userPath user).2.2 htotal]

/-- C2 counterexample: over a store holding one note whose normalized text
is empty, the first run creates nothing but still counts the note, and the
second run returns count 1, not 0 — refuting the claim that the count
returned by the second run is always 0. -/
theorem reconcile_idempotent_counterexample :
    (reconcileTwice envEmptyText "P".data "U".data storeOneNote none).2.count = 1 := by
  decide

/-- Witness for C2 amended: with nonempty text and a working embedder, the
second run creates nothing and returns count 0. -/
theorem reconcile_idempotent_witness :
    ((reconcileTwice envGoodEmbed "P".data "U".data storeOneNote none).2.created = [])
    ∧ ((reconcileTwice envGoodEmbed "P".data "U".data storeOneNote none).2.count = 0) :=
  ⟨(reconcile_idempotent envGoodEmbed "P".data "U".data storeOneNote none).2.2.1,
    (reconcile_idempotent envGoodEmbed "P".data "U".data storeOneNote none).2.2.2
      (fun s => ⟨show (trimChars "t".data).length ≠ 0 by decide,
        show embedOk (.ok [1]) = true from rfl⟩)⟩

theorem processDay_created_sound (env : Env) (dayPath : Str) (files0 : List FSFile) :
    ∀ nd ∈ (processDay env dayPath files0).created,
      ∃ md, md ∈ mdFilesOf files0 ∧ genOf env dayPath md = some nd.2
        ∧ nd.1 = ebNameOf md.name := by
  intro nd hnd
  rcases processDayGo_created env dayPath (mdFilesOf files0) _ nd hnd with h | h
  · simp at h
  · exact h

theorem processStore_created_sound (env : Env) (basePath : Str) (store : StoreFS) :
    ∀ nd ∈ (processStore env basePath store).created,
      ∃ (p c : Str) (t : ℤ), generateEmbeddingForEntry env p c t = some nd.2 := by
  intro nd hnd
  rcases store with _ | entries
  · simp [processStore] at hnd
  · have hnd' : nd ∈ (((entries.map (processEntry env basePath)).map
        (fun r => r.2.1)).flatten) := hnd
    rw [List.mem_flatten] at hnd'
    obtain ⟨l, hl, hnd⟩ := hnd' 
    simp only [List.map_map, List.mem_map, Function.comp_apply] at hl
    obtain ⟨e, -, rfl⟩ := hl
    rw [processEntry_eq] at hnd
    split at hnd
    · obtain ⟨md, -, hg, -⟩ := processDay_created_sound env _ _ nd hnd
      exact ⟨_, _, _, hg⟩
    · simp at hnd

/-! ## Claim C4 -/

/-- C4: a note whose normalized (extracted) text trims to empty is never
embedded: the write-time step `generateEmbeddingForEntry` returns no record
(without raising an error — it is total), and every record reconciliation
creates has nonempty trimmed text. -/
theorem empty_text_never_embedded (env : Env) :
    (∀ (filePath content : Str) (ts : ℤ),
        (trimChars (env.extract content).1).length = 0 →
          generateEmbeddingForEntry env filePath content ts = none)
    ∧ (∀ (projectPath userPath : Str) (proj user : StoreFS)
        (nd : Str × EmbeddingData),
        nd ∈ (generateMissingEmbeddings env projectPath userPath proj user).created →
          (trimChars nd.2.text).length ≠ 0) := by
  refine ⟨generateEmbeddingForEntry_empty env, ?_⟩
  intro projectPath userPath proj user nd hnd
  have hnd' : nd ∈ (processStore env projectPath proj).created
      ++ (processStore env userPath user).created := hnd
  rw [List.mem_append] at hnd'
  rcases hnd' with hnd | hnd
  · obtain ⟨p, c, t, hg⟩ := processStore_created_sound env projectPath proj nd hnd
    exact generateEmbeddingForEntry_text env p c t nd.2 hg
  · obtain ⟨p, c, t, hg⟩ := processStore_created_sound env userPath user nd hnd
    exact generateEmbeddingForEntry_text env p c t nd.2 hg

/-- Witness for C4: the empty-extraction environment embeds nothing. -/
theorem empty_text_never_embedded_witness :
    generateEmbeddingForEntry envEmptyText "p".data "c".data 0 = none :=
  (empty_text_never_embedded envEmptyText).1 "p".data "c".data 0 (by decide)

theorem ebNameOf_inj (a b : Str) (ha : endsWithStr a ".md".data = true)
    (hb : endsWithStr b ".md".data = true) (h : ebNameOf a = ebNameOf b) :
    a = b := by
  rw [endsWithStr, decide_eq_true_eq] at ha hb
  obtain ⟨ta, hta⟩ := ha
  obtain ⟨tb, htb⟩ := hb
  have hla : a.length - 3 = ta.length := by
    rw [← hta, List.length_append]
    simp
  have hlb : b.length - 3 = tb.length := by
    rw [← htb, List.length_append]
    simp
  have hka : a.take (a.length - 3) = ta := by
    rw [hla, ← hta, List.take_left]
  have hkb : b.take (b.length - 3) = tb := by
    rw [hlb, ← htb, List.take_left]
  rw [ebNameOf, ebNameOf, hka, hkb] at h
  have hlen : ta.length = tb.length := by
    have := congrArg List.length h
    rw [List.length_append, List.length_append] at this
    omega
  have := (List.append_inj h hlen).1
  rw [← hta, ← htb, this]

theorem processDayStep_skip (env : Env) (dayPath : Str) (acc : DayStep)
    (md : FSFile)
    (h : acc.files.any (fun f => decide (f.name = ebNameOf md.name)) = true) :
    processDayStep env dayPath acc md
      = { acc with events := acc.events
          ++ [.accessEv (pathJoin dayPath (ebNameOf md.name))] } := by
  rw [processDayStep_eq, if_pos h]

theorem processDayStep_none (env : Env) (dayPath : Str) (acc : DayStep)
    (md : FSFile)
    (h : acc.files.any (fun f => decide (f.name = ebNameOf md.name)) = false)
    (hg : genOf env dayPath md = none) :
    processDayStep env dayPath acc md
      = { acc with
          count := acc.count + 1
          events := acc.events ++ [.accessEv (pathJoin dayPath (ebNameOf md.name)),
            .readFileEv (pathJoin dayPath md.name)] } := by
  rw [processDayStep_eq, if_neg (by rw [h]; exact Bool.false_ne_true), hg]

theorem processDayStep_some (env : Env) (dayPath : Str) (acc : DayStep)
    (md : FSFile) (d : EmbeddingData)
    (h : acc.files.any (fun f => decide (f.name = ebNameOf md.name)) = false)
    (hg : genOf env dayPath md = some d) :
    processDayStep env dayPath acc md
      = { files := acc.files ++ [⟨ebNameOf md.name, env.encode d⟩]
          created := acc.created ++ [(ebNameOf md.name, d)]
          count := acc.count + 1
          events := acc.events ++ [.accessEv (pathJoin dayPath (ebNameOf md.name)),
            .readFileEv (pathJoin dayPath md.name),
            .writeFileEv (pathJoin dayPath (ebNameOf md.name)) (env.encode d)] } := by
  rw [processDayStep_eq, if_neg (by rw [h]; exact Bool.false_ne_true), hg]

theorem processDayGo_char (env : Env) (dayPath : Str) (ms : List FSFile) :
    ∀ acc : DayStep,
      (ms.map (fun f => f.name)).Nodup →
      (∀ md ∈ ms, endsWithStr md.name ".md".data = true) →
      (ms.foldl (processDayStep env dayPath) acc).count
          = acc.count + (ms.filter (fun md =>
              !(acc.files.any (fun f => decide (f.name = ebNameOf md.name))))).length
      ∧ (ms.foldl (processDayStep env dayPath) acc).created
          = acc.created ++ (ms.filter (fun md =>
              !(acc.files.any (fun f => decide (f.name = ebNameOf md.name))))).filterMap
              (fun md => (genOf env dayPath md).map (fun d => (ebNameOf md.name, d))) := by
  induction ms with
  | nil => intro acc _ _; exact ⟨by simp, by simp⟩
  | cons md0 rest ih =>
    intro acc hnodup hmd
    rw [List.map_cons, List.nodup_cons] at hnodup
    obtain ⟨hnotin, hnodup'⟩ := hnodup
    have hmd0 := hmd md0 (List.mem_cons_self _ _)
    have hmd' : ∀ md ∈ rest, endsWithStr md.name ".md".data = true :=
      fun md hm => hmd md (List.mem_cons_of_mem _ hm)
    rw [List.foldl_cons]
    by_cases hskip : acc.files.any (fun f => decide (f.name = ebNameOf md0.name))
    · rw [processDayStep_skip env dayPath acc md0 hskip]
      obtain ⟨hc, hcr⟩ := ih _ hnodup' hmd'
      rw [List.filter_cons]
      have hpred : ¬((!(acc.files.any (fun f => decide (f.name = ebNameOf md0.name)))) = true) := by
        rw [hskip]
        exact Bool.false_ne_true
      rw [if_neg hpred]
      exact ⟨hc, hcr⟩
    · rw [Bool.not_eq_true] at hskip
      have hpred : (!(acc.files.any (fun f => decide (f.name = ebNameOf md0.name)))) = true := by
        rw [hskip]; rfl
      rcases hg0 : genOf env dayPath md0 with _ | d
      · rw [processDayStep_none env dayPath acc md0 hskip hg0]
        obtain ⟨hc, hcr⟩ := ih _ hnodup' hmd'
        constructor
        · rw [hc]
          dsimp only
          rw [List.filter_cons, if_pos hpred, List.length_cons]
          omega
        · rw [hcr]
          dsimp only
          rw [List.filter_cons, if_pos hpred, List.filterMap_cons, hg0]
          rfl
      · rw [processDayStep_some env dayPath acc md0 d hskip hg0]
        have hanyrw : rest.filter (fun md =>
              !((acc.files ++ [(⟨ebNameOf md0.name, env.encode d⟩ : FSFile)]).any
                (fun f => decide (f.name = ebNameOf md.name))))
            = rest.filter (fun md =>
                !(acc.files.any (fun f => decide (f.name = ebNameOf md.name)))) := by
          apply List.filter_congr
          intro md hm
          rw [List.any_append]
          have hsingle : ([(⟨ebNameOf md0.name, env.encode d⟩ : FSFile)].any
              (fun f => decide (f.name = ebNameOf md.name))) = false := by
            simp only [List.any_cons, List.any_nil, Bool.or_false]
            rw [decide_eq_false_iff_not]
            intro heq
            apply hnotin
            rw [ebNameOf_inj md0.name md.name hmd0 (hmd' md hm) heq]
            exact List.mem_map.mpr ⟨md, hm, rfl⟩
          rw [hsingle, Bool.or_false]
        obtain ⟨hc, hcr⟩ := ih _ hnodup' hmd'
        constructor
        · rw [hc]
          dsimp only
          rw [hanyrw, List.filter_cons, if_pos hpred, List.length_cons]
          omega
        · rw [hcr]
          dsimp only
          rw [hanyrw, List.filter_cons, if_pos hpred, List.filterMap_cons, hg0]
          simp

theorem processDay_char (env : Env) (dayPath : Str) (files0 : List FSFile)
    (hnodup : (files0.map (fun f => f.name)).Nodup) :
    (processDay env dayPath files0).count = (attemptedOfDay files0).length
    ∧ (processDay env dayPath files0).created = createdOfDay env dayPath files0 := by
  have hsub : List.Sublist ((mdFilesOf files0).map (fun f => f.name))
      (files0.map (fun f => f.name)) := (List.filter_sublist files0).map _
  have hnodup' := hnodup.sublist hsub
  have hmd : ∀ md ∈ mdFilesOf files0, endsWithStr md.name ".md".data = true := by
    intro md hm
    rw [mdFilesOf] at hm
    exact (List.mem_filter.mp hm).2
  obtain ⟨hc, hcr⟩ := processDayGo_char env dayPath (mdFilesOf files0)
    ⟨files0, [], 0, []⟩ hnodup' hmd
  constructor
  · show (List.foldl (processDayStep env dayPath)
        ⟨files0, [], 0, []⟩ (mdFilesOf files0)).count = _
    rw [hc]
    dsimp only
    rw [Nat.zero_add]
    rfl
  · show (List.foldl (processDayStep env dayPath)
        ⟨files0, [], 0, []⟩ (mdFilesOf files0)).created = _
    rw [hcr]
    rfl

theorem processStore_char (env : Env) (basePath : Str) (store : StoreFS)
    (hnodup : storeNamesNodup store = true) :
    (processStore env basePath store).count = attemptedOfStore store
    ∧ (processStore env basePath store).created = createdOfStore env basePath store := by
  rcases store with _ | entries
  · exact ⟨rfl, rfl⟩
  · rw [storeNamesNodup, List.all_eq_true] at hnodup
    constructor
    · show List.sum _ = _
      rw [attemptedOfStore]
      simp only [List.map_map]
      congr 1
      apply List.map_congr_left
      intro e he
      simp only [Function.comp_apply]
      rw [processEntry_eq]
      by_cases hm : e.isDir && matchesDayDir e.name
      · rw [if_pos hm]
        have hn := hnodup e he
        rw [decide_eq_true_eq] at hn
        show (processDay env (pathJoin basePath e.name) e.files).count = _
        rw [(processDay_char env (pathJoin basePath e.name) e.files hn).1,
          attemptedOfEntry, if_pos hm]
      · rw [if_neg hm]
        show 0 = attemptedOfEntry e
        rw [attemptedOfEntry, if_neg hm]
    · show List.flatten _ = _
      rw [createdOfStore]
      simp only [List.map_map]
      congr 1
      apply List.map_congr_left
      intro e he
      simp only [Function.comp_apply]
      rw [processEntry_eq]
      by_cases hm : e.isDir && matchesDayDir e.name
      · rw [if_pos hm]
        have hn := hnodup e he
        rw [decide_eq_true_eq] at hn
        show (processDay env (pathJoin basePath e.name) e.files).created = _
        rw [(processDay_char env (pathJoin basePath e.name) e.files hn).2,
          createdOfEntry, if_pos hm]
      · rw [if_neg hm]
        show ([] : List (Str × EmbeddingData)) = createdOfEntry env basePath e
        rw [createdOfEntry, if_neg hm]

theorem createdOfStore_le (env : Env) (basePath : Str) (store : StoreFS) :
    (createdOfStore env basePath store).length ≤ attemptedOfStore store := by
  rcases store with _ | entries
  · exact Nat.le_refl 0
  · rw [createdOfStore, attemptedOfStore, List.length_flatten, List.map_map]
    apply List.sum_le_sum
    intro e he
    simp only [Function.comp_apply]
    rw [createdOfEntry, attemptedOfEntry]
    by_cases hm : e.isDir && matchesDayDir e.name
    · rw [if_pos hm, if_pos hm, createdOfDay]
      exact List.length_filterMap_le _ _
    · rw [if_neg hm, if_neg hm]
      exact Nat.le_refl 0

/-! ## Claim C3 -/

/-- C3 amended: reconciliation never aborts — over stores whose directory
listings have distinct file names, the count it returns equals the number of
notes that lacked a sidecar (the attempted notes), and the records it
creates are exactly the attempted notes whose text is nonempty and whose
embedding succeeds, each note handled independently of the others.  The
count can therefore exceed the number of records actually created (see the
counterexample): a note whose embedding fails (or whose text is empty) is
logged, skipped and still counted. -/
theorem reconcile_count_attempted (env : Env) (projectPath userPath : Str)
    (proj user : StoreFS) (hp : storeNamesNodup proj = true)
    (hu : storeNamesNodup user = true) :
    (generateMissingEmbeddings env projectPath userPath proj user).count
        = attemptedOfStore proj + attemptedOfStore user
    ∧ (generateMissingEmbeddings env projectPath userPath proj user).created
        = createdOfStore env projectPath proj ++ createdOfStore env userPath user
    ∧ (generateMissingEmbeddings env projectPath userPath proj user).created.length
        ≤ (generateMissingEmbeddings env projectPath userPath proj user).count := by
  obtain ⟨hc1, hr1⟩ := processStore_char env projectPath proj hp
  obtain ⟨hc2, hr2⟩ := processStore_char env userPath user hu
  refine ⟨?_, ?_, ?_⟩
  · show (processStore env projectPath proj).count
        + (processStore env userPath user).count = _
    rw [hc1, hc2]
  · show (processStore env projectPath proj).created
        ++ (processStore env userPath user).created = _
    rw [hr1, hr2]
  · show ((processStore env projectPath proj).created
        ++ (processStore env userPath user).created).length
      ≤ (processStore env projectPath proj).count
        + (processStore env userPath user).count
    rw [hr1, hr2, hc1, hc2, List.length_append]
    exact Nat.add_le_add (createdOfStore_le env projectPath proj)
      (createdOfStore_le env userPath user)

/-- C3 counterexample: over a store holding one note without a sidecar whose
embedding fails, reconciliation returns count 1 but creates no record — so
the returned count does not equal the number of records actually created. -/
theorem reconcile_count_counterexample :
    (generateMissingEmbeddings envFailEmbed "P".data "U".data storeOneNote none).count = 1
    ∧ (generateMissingEmbeddings envFailEmbed "P".data "U".data storeOneNote none).created = [] := by
  constructor
  · decide
  · decide

/-- Witness for C3 amended at a concrete one-note store. -/
theorem reconcile_count_attempted_witness :
    (generateMissingEmbeddings envFailEmbed "P".data "U".data storeOneNote none).count
        = attemptedOfStore storeOneNote + attemptedOfStore none
    ∧ (generateMissingEmbeddings envFailEmbed "P".data "U".data storeOneNote none).created
        = createdOfStore envFailEmbed "P".data storeOneNote
          ++ createdOfStore envFailEmbed "U".data none
    ∧ (generateMissingEmbeddings envFailEmbed "P".data "U".data storeOneNote none).created.length
        ≤ (generateMissingEmbeddings envFailEmbed "P".data "U".data storeOneNote none).count :=
  reconcile_count_attempted envFailEmbed "P".data "U".data storeOneNote none
    (by decide) (by decide)

/-! ## Claim C8 -/

theorem bestFold_spec (score : Nat → Nat) (l : List Nat) :
    ∀ acc : Nat × Nat, acc.2 = score acc.1 → (∀ q ∈ l, acc.1 < q) →
      List.Pairwise (· < ·) l →
      (l.foldl (bestFoldStep score) acc).2 = score (l.foldl (bestFoldStep score) acc).1
      ∧ ((l.foldl (bestFoldStep score) acc).1 = acc.1
          ∨ (l.foldl (bestFoldStep score) acc).1 ∈ l)
      ∧ acc.2 ≤ (l.foldl (bestFoldStep score) acc).2
      ∧ (∀ q ∈ l, score q ≤ (l.foldl (bestFoldStep score) acc).2)
      ∧ (acc.1 < (l.foldl (bestFoldStep score) acc).1 →
          acc.2 < (l.foldl (bestFoldStep score) acc).2)
      ∧ (∀ q ∈ l, q < (l.foldl (bestFoldStep score) acc).1 →
          score q < (l.foldl (bestFoldStep score) acc).2) := by
  induction l with
  | nil =>
    intro acc hacc _ _
    exact ⟨hacc, Or.inl rfl, Nat.le_refl _, by simp, fun h => absurd h (Nat.lt_irrefl _),
      by simp⟩
  | cons x xs ih =>
    intro acc hacc hlt hpw
    rw [List.pairwise_cons] at hpw
    obtain ⟨hxlt, hpw'⟩ := hpw
    rw [List.foldl_cons]
    by_cases hstep : acc.2 < score x
    · have hstepeq : bestFoldStep score acc x = (x, score x) := by
        rw [bestFoldStep, if_pos hstep]
      rw [hstepeq]
      obtain ⟨i1, i2, i3, i4, i5, i6⟩ := ih (x, score x) rfl (fun q hq => hxlt q hq) hpw'
      refine ⟨i1, ?_, ?_, ?_, ?_, ?_⟩
      · rcases i2 with h | h
        · exact Or.inr (h ▸ List.mem_cons_self _ _)
        · exact Or.inr (List.mem_cons_of_mem _ h)
      · exact Nat.le_trans (Nat.le_of_lt hstep) i3
      · intro q hq
        rw [List.mem_cons] at hq
        rcases hq with rfl | hq
        · exact i3
        · exact i4 q hq
      · intro _
        exact Nat.lt_of_lt_of_le hstep i3
      · intro q hq hqlt
        rw [List.mem_cons] at hq
        rcases hq with rfl | hq
        · exact i5 hqlt
        · exact i6 q hq hqlt
    · have hstepeq : bestFoldStep score acc x = acc := by
        rw [bestFoldStep, if_neg hstep]
      rw [hstepeq]
      have hsx : score x ≤ acc.2 := Nat.le_of_not_lt hstep
      obtain ⟨i1, i2, i3, i4, i5, i6⟩ := ih acc hacc
        (fun q hq => Nat.lt_trans (hlt x (List.mem_cons_self _ _)) (hxlt q hq)) hpw'
      refine ⟨i1, ?_, i3, ?_, i5, ?_⟩
      · rcases i2 with h | h
        · exact Or.inl h
        · exact Or.inr (List.mem_cons_of_mem _ h)
      · intro q hq
        rw [List.mem_cons] at hq
        rcases hq with rfl | hq
        · exact Nat.le_trans hsx i3
        · exact i4 q hq
      · intro q hq hqlt
        rw [List.mem_cons] at hq
        rcases hq with rfl | hq
        · exact Nat.lt_of_le_of_lt hsx
            (i5 (Nat.lt_trans (hlt q (List.mem_cons_self _ _)) hqlt))
        · exact i6 q hq hqlt

theorem pairwise_lt_range' (n s : Nat) :
    List.Pairwise (· < ·) (List.range' s n 20) := by
  induction n generalizing s with
  | zero => exact List.Pairwise.nil
  | succ k ih =>
    rw [List.range']
    rw [List.pairwise_cons]
    refine ⟨?_, ih (s + 20)⟩
    intro m hm
    rw [List.mem_range'] at hm
    obtain ⟨i, -, rfl⟩ := hm
    omega

theorem bestPosition_spec (qw : List Str) (tl : Str) (L M : Nat) :
    (L < M → bestPosition qw tl L M = 0)
    ∧ (M ≤ L →
        bestPosition qw tl L M ∈ excerptPositions L M
        ∧ (∀ q ∈ excerptPositions L M,
            windowScore qw tl M q ≤ windowScore qw tl M (bestPosition qw tl L M))
        ∧ (∀ q ∈ excerptPositions L M, q < bestPosition qw tl L M →
            windowScore qw tl M q < windowScore qw tl M (bestPosition qw tl L M))) := by
  constructor
  · intro h
    rw [bestPosition, excerptPositions, if_pos h]
    rfl
  · intro h
    have hnl : ¬(L < M) := Nat.not_lt.mpr h
    have hpos : excerptPositions L M = 0 :: List.range' 20 ((L - M) / 20) 20 := by
      rw [excerptPositions, if_neg hnl, List.range'_succ]
    have hstep1 : bestFoldStep (windowScore qw tl M) (0, 0) 0
        = (0, windowScore qw tl M 0) := by
      by_cases h0 : (0 : Nat) < windowScore qw tl M 0
      · rw [bestFoldStep, if_pos h0]
      · rw [bestFoldStep, if_neg h0]
        have hz : windowScore qw tl M 0 = 0 := Nat.eq_zero_of_not_pos h0
        rw [hz]
    have hfold : bestPosition qw tl L M
        = ((List.range' 20 ((L - M) / 20) 20).foldl
            (bestFoldStep (windowScore qw tl M)) (0, windowScore qw tl M 0)).1 := by
      rw [bestPosition, hpos, List.foldl_cons, hstep1]
    obtain ⟨i1, i2, i3, i4, i5, i6⟩ := bestFold_spec (windowScore qw tl M)
      (List.range' 20 ((L - M) / 20) 20) (0, windowScore qw tl M 0) rfl
      (by
        intro q hq
        rw [List.mem_range'] at hq
        obtain ⟨i, -, rfl⟩ := hq
        omega)
      (pairwise_lt_range' _ _)
    refine ⟨?_, ?_, ?_⟩
    · rw [hfold, hpos]
      rcases i2 with h2 | h2
      · rw [h2]
        exact List.mem_cons_self _ _
      · exact List.mem_cons_of_mem _ h2
    · intro q hq
      rw [hpos, List.mem_cons] at hq
      rw [hfold, ← i1]
      rcases hq with rfl | hq
      · exact i3
      · exact i4 q hq
    · intro q hq hlt
      rw [hpos, List.mem_cons] at hq
      rw [hfold] at hlt
      rw [hfold, ← i1]
      rcases hq with rfl | hq
      · exact i5 hlt
      · exact i6 q hq hlt

/-- C8 amended: excerpt generation follows the specified algorithm with one
correction — a window is scored by the number of entries of the lower-cased
whitespace-split query word list it contains *with multiplicity* (the code
does not deduplicate the list), not by the number of distinct query words.
An empty (or whitespace) query yields the first `maxLength` characters with
an ellipsis exactly when the text is longer; otherwise the returned window
starts at `excerptBest`, which is the first window position of maximal
score among the fixed-step (20) positions, with an ellipsis prefix iff it
is not position 0 and an ellipsis suffix iff the window stops short of the
end. -/
theorem generateExcerpt_spec (text query : Str) (maxLength : Nat) :
    (trimChars query = [] →
      generateExcerpt text query maxLength
        = text.take maxLength ++ (if maxLength < text.length then excerptEllipsis else []))
    ∧ (trimChars query ≠ [] →
      generateExcerpt text query maxLength
        = (if 0 < excerptBest text query maxLength then excerptEllipsis else [])
          ++ (text.drop (excerptBest text query maxLength)).take maxLength
          ++ (if excerptBest text query maxLength + maxLength < text.length
              then excerptEllipsis else []))
    ∧ (text.length < maxLength → excerptBest text query maxLength = 0)
    ∧ (maxLength ≤ text.length →
        excerptBest text query maxLength ∈ excerptPositions text.length maxLength
        ∧ (∀ q ∈ excerptPositions text.length maxLength,
            excerptScore text query maxLength q
              ≤ excerptScore text query maxLength (excerptBest text query maxLength))
        ∧ (∀ q ∈ excerptPositions text.length maxLength,
            q < excerptBest text query maxLength →
              excerptScore text query maxLength q
                < excerptScore text query maxLength (excerptBest text query maxLength))) := by
  refine ⟨?_, ?_, ?_, ?_⟩
  · intro h
    rw [generateExcerpt, if_pos h]
  · intro h
    rw [generateExcerpt, if_neg h]
  · intro h
    exact (bestPosition_spec (splitWs (lowerStr query)) (lowerStr text)
      text.length maxLength).1 h
  · intro h
    exact (bestPosition_spec (splitWs (lowerStr query)) (lowerStr text)
      text.length maxLength).2 h

/-- C8 counterexample: for the text `a` + 19 `x`s + `b` (two window
positions, 0 and 20, at width 1) and the query `"b b a"`, the code scores
the `b` window 2 (the duplicated word counts twice) and returns `...b`,
while the claim's distinct-word scoring ties both windows at 1 and must
return the first window `a...` — so the claim as stated disagrees with the
code. -/
theorem generateExcerpt_distinct_counterexample :
    generateExcerpt "axxxxxxxxxxxxxxxxxxxb".data "b b a".data 1
        ≠ generateExcerptClaim "axxxxxxxxxxxxxxxxxxxb".data "b b a".data 1
    ∧ generateExcerpt "axxxxxxxxxxxxxxxxxxxb".data "b b a".data 1 = "...b".data
    ∧ generateExcerptClaim "axxxxxxxxxxxxxxxxxxxb".data "b b a".data 1 = "a...".data :=
  ⟨by decide, by decide, by decide⟩

/-- Witness for C8 amended at text `"ab"`, query `"b"`, width 1. -/
theorem generateExcerpt_spec_witness :
    generateExcerpt "ab".data "b".data 1
      = (if 0 < excerptBest "ab".data "b".data 1 then excerptEllipsis else [])
        ++ ("ab".data.drop (excerptBest "ab".data "b".data 1)).take 1
        ++ (if excerptBest "ab".data "b".data 1 + 1 < "ab".data.length
            then excerptEllipsis else [])
    ∧ excerptBest "ab".data "b".data 1 ∈ excerptPositions "ab".data.length 1 :=
  ⟨(generateExcerpt_spec "ab".data "b".data 1).2.1 (by decide),
    ((generateExcerpt_spec "ab".data "b".data 1).2.2.2 (by decide)).1⟩
